import Mathlib

/-!
# Verification of the sbinary encoder/decoder

A shallow embedding of the `sbinary` Go package (files `encode.go`,
`decode.go`, `custom.go`): a reflection-driven binary serializer in which
struct fields are concatenated in declaration order with no framing, and
variable-length fields (strings, byte buffers, slices) take their length
from a sibling field annotated with a struct tag `sbin:"lenof:<Target>"`.

Modelling conventions:

* Wire bytes are `Nat`s (< 256 for well-formed values); readers are byte
  lists, writers produce byte lists.  `binary.Write`/`binary.Read` of a
  `w`-byte unsigned value with a byte order become `putUint`/`getUint`;
  signed values go through two's complement (`toTwos`/`ofTwos`).
* Go `reflect` dispatch on `val.Kind()` becomes dispatch on a deep type
  `Ty`; the runtime value is a separate `Value` (as in Go, where a
  `reflect.Value` carries both).  Struct tags are the inductive `Tag`
  (`"-"` is `Tag.skip`, `"lenof:t"` is `Tag.lenof t`; any other tag
  string behaves like no tag).
* The platform word width of Go's `int`/`uint` (`val.Type().Size()`)
  is the explicit flag `is64` (`true` = 64-bit platform).
* Floating point fields are carried as their IEEE bit patterns
  (`binary.Write`/`Read` of a float is exactly the write/read of its
  bit pattern), so `float32`/`float64` values are `Value.vuint` bits.
* Types implementing `CustomEncoder`/`CustomDecoder` are `Ty.custom id u`
  (`u` the underlying Go type); their hooks are the parameters
  `cenc`/`cdec`.  A hook's writer cannot fail on a byte-list writer, so
  `cenc` is total, as is `encode` (in Go, `encode` fails only when a
  hook or the writer fails).
* `Decoder.Decode` decodes in place through pointers; fields the decoder
  never touches keep their previous contents.  `decode` therefore takes
  the current value `cur` and returns the new value plus remaining bytes.
-/

/-- Wire bytes. -/
abbrev Bytes := List Nat

/-- `binary.ByteOrder`: big or little endian. -/
inductive ByteOrder where
  | big
  | little
deriving DecidableEq

/-- Big-endian, fixed-width base-256 digits of `v` (most significant first),
truncating to `w` bytes. -/
def beBytes : Nat → Nat → Bytes
  | 0, _ => []
  | w + 1, v => beBytes w (v / 256) ++ [v % 256]

/-- `binary.Write` of a `w`-byte unsigned value. -/
def putUint (order : ByteOrder) (w v : Nat) : Bytes :=
  match order with
  | .big => beBytes w v
  | .little => (beBytes w v).reverse

/-- Value of big-endian digits. -/
def beVal (bs : Bytes) : Nat := bs.foldl (fun acc b => acc * 256 + b) 0

/-- `binary.Read` of an unsigned value from a full-width chunk. -/
def getUint (order : ByteOrder) (bs : Bytes) : Nat :=
  match order with
  | .big => beVal bs
  | .little => beVal bs.reverse

/-- Decode errors.  Go wraps errors with `fmt.Errorf`; each wrapping
format string is a constructor here. -/
inductive DErr where
  /-- an `io` read failure inside `binary.Read` (`"can't read ..."`). -/
  | eof
  /-- `"size of slice not specified"`: a variable-length field was reached
  with a `nil` size. -/
  | noSize
  /-- `"can't decode a slice: %w"` (used by both the string and slice arms). -/
  | sliceRead (e : DErr)
  /-- `"can't decode an array: %w"`. -/
  | arrayRead (e : DErr)
  /-- `"can't decode field %v (%v): %w"` from the struct loop. -/
  | field (name : String) (e : DErr)
  /-- an error produced by a `CustomDecoder` implementation. -/
  | hook (msg : String)
  /-- the `reflect.Copy` panic when decoding an array whose element type
  is a defined byte type rather than `uint8` itself (`typesMustMatch`
  requires identical element types).  A Go panic unwinds the stack
  rather than being returned as an error; it is modelled here as an
  aborting outcome, and no theorem relies on how it would propagate. -/
  | copyPanic
deriving DecidableEq

/-- `io.ReadFull` of `w` bytes from the stream. -/
def readN (w : Nat) (bs : Bytes) : Except DErr (Bytes × Bytes) :=
  if bs.length < w then .error .eof else .ok (bs.take w, bs.drop w)

/-- Two's-complement representation of `i` in `w` bytes. -/
def toTwos (w : Nat) (i : Int) : Nat := (i % ((2 : Int) ^ (8 * w))).toNat

/-- Signed reading of a `w`-byte two's-complement pattern. -/
def ofTwos (w : Nat) (n : Nat) : Int :=
  if n < 2 ^ (8 * w - 1) then (n : Int) else (n : Int) - (2 : Int) ^ (8 * w)

/-- Byte width of Go's `int`/`uint` on the platform
(`val.Type().Size()` in `encode.go`/`decode.go`). -/
def goIntW (is64 : Bool) : Nat := if is64 then 8 else 4

/-- Conversion to Go's platform `int` (wraps modulo the platform width),
as performed by `int(val.Int())` / `int(val.Uint())` in
`sizeOfAnotherField`. -/
def toGoInt (is64 : Bool) (i : Int) : Int :=
  ofTwos (goIntW is64) (toTwos (goIntW is64) i)

/-- The `sbin` struct tag of a field. -/
inductive Tag where
  /-- no tag (or an unrecognized tag string). -/
  | none
  /-- `sbin:"-"`: the field is excluded. -/
  | skip
  /-- `sbin:"lenof:<target>"`: this field designates the length of `target`. -/
  | lenof (target : String)
deriving DecidableEq

mutual
/-- Deep embedding of the Go types the package traverses, one constructor
per `reflect.Kind` arm of `encode`/`decode` (plus `custom` for types
implementing the `CustomEncoder`/`CustomDecoder` interfaces). -/
inductive Ty where
  | bool
  | int
  | int8
  | int16
  | int32
  | int64
  | uint
  | uint8
  | uint16
  | uint32
  | uint64
  | float32
  | float64
  | str
  | slice (elem : Ty)
  | array (n : Nat) (elem : Ty)
  | struct (fields : StructFields)
  | ptr (elem : Ty)
  | iface
  | custom (id : Nat) (under : Ty)

/-- Declared fields of a struct type: name, `sbin` tag, exportedness and
field type, in declaration order. -/
inductive StructFields where
  | nil
  | cons (name : String) (tag : Tag) (exported : Bool) (ty : Ty)
      (rest : StructFields)
end

/-- Runtime values.  As in Go, all signed kinds share `vint` (`val.Int()`
is an `int64`), all unsigned kinds and float bit patterns share `vuint`.
`vslice Option.none` is a nil slice, `vptr Option.none` a nil pointer;
`vnone` is the (ignored) content of an interface field. -/
inductive Value where
  | vint (i : Int)
  | vuint (n : Nat)
  | vbool (b : Bool)
  | vstr (s : Bytes)
  | vlist (xs : List Value)
  | vslice (xs : Option (List Value))
  | vptr (v : Option Value)
  | vnone

/-- `val.Int()`. -/
def asInt : Value → Int
  | .vint i => i
  | _ => 0

/-- `val.Uint()` (also the bit pattern of a float value). -/
def asNat : Value → Nat
  | .vuint n => n
  | _ => 0

/-- `val.Bool()`. -/
def asBool : Value → Bool
  | .vbool b => b
  | _ => false

/-- `[]byte(val.String())`. -/
def asStr : Value → Bytes
  | .vstr s => s
  | _ => []

/-- Elements of an array or struct value. -/
def asList : Value → List Value
  | .vlist xs => xs
  | _ => []

/-- Elements of a slice value (a nil slice has no elements). -/
def asSliceList : Value → List Value
  | .vslice (Option.some xs) => xs
  | _ => []

/-- Referent of a pointer value. -/
def asPtr : Value → Option Value
  | .vptr v => v
  | _ => Option.none

/-- `val.Bytes()` of a `[]byte`/`[n]byte` element list. -/
def asBytesList (xs : List Value) : Bytes := xs.map asNat

/-- `elemKind == reflect.Uint8`: a Go *kind* check, so it also holds
for a defined type whose underlying type is `uint8` (a `Ty.custom` type
has the kind of its underlying type) — even one implementing the
custom-codec hooks.  The slice/array byte fast paths therefore bypass
the hooks for such element types. -/
def isU8 : Ty → Bool
  | .uint8 => true
  | .custom _ u => isU8 u
  | _ => false

/-- The `typesMustMatch` check inside `reflect.Copy`: the array's
element type must be *identical* to `uint8`, not merely of byte kind
(`reflect.Value.Bytes`/`SetBytes`, used for slices, only check the
kind). -/
def isExactU8 : Ty → Bool
  | .uint8 => true
  | _ => false

/-- `fieldTag == "-"`. -/
def tagSkip : Tag → Bool
  | .skip => true
  | _ => false

mutual
/-- `reflect.New(t).Elem()`: the zero value of a type. -/
def zeroValue : Ty → Value
  | .bool => .vbool false
  | .int => .vint 0
  | .int8 => .vint 0
  | .int16 => .vint 0
  | .int32 => .vint 0
  | .int64 => .vint 0
  | .uint => .vuint 0
  | .uint8 => .vuint 0
  | .uint16 => .vuint 0
  | .uint32 => .vuint 0
  | .uint64 => .vuint 0
  | .float32 => .vuint 0
  | .float64 => .vuint 0
  | .str => .vstr []
  | .slice _ => .vslice Option.none
  | .array n e => .vlist (List.replicate n (zeroValue e))
  | .struct fs => .vlist (zeroFields fs)
  | .ptr _ => .vptr Option.none
  | .iface => .vnone
  | .custom _ u => zeroValue u

/-- Zero values of a field list. -/
def zeroFields : StructFields → List Value
  | .nil => []
  | .cons _ _ _ t rest => zeroValue t :: zeroFields rest
end

/-- `val.CanInt()`: the kind is a signed integer kind (a defined type has
the kind of its underlying type). -/
def canIntTy : Ty → Bool
  | .int => true
  | .int8 => true
  | .int16 => true
  | .int32 => true
  | .int64 => true
  | .custom _ u => canIntTy u
  | _ => false

/-- `val.CanUint()`: the kind is an unsigned integer kind. -/
def canUintTy : Ty → Bool
  | .uint => true
  | .uint8 => true
  | .uint16 => true
  | .uint32 => true
  | .uint64 => true
  | .custom _ u => canUintTy u
  | _ => false

/-- Lookup in the `lens` table of the struct-decoding loop.  Entries are
prepended on update, so the first hit is the most recent write, matching
Go map assignment. -/
def lookupLens : List (String × Int) → String → Option Int
  | [], _ => Option.none
  | (k, v) :: tl, n => if k = n then Option.some v else lookupLens tl n

/-- `sizeOfAnotherField` from `decode.go`: if the decoded field value is
numeric (unwrapping pointers) and its tag is `lenof:<target>`, yield the
target name and the value converted to a platform `int`. -/
def sizeOfAnotherField (is64 : Bool) : Ty → Value → Tag → Option (String × Int)
  | .custom _ u, v, tag => sizeOfAnotherField is64 u v tag
  | .ptr e, v, tag =>
    match v with
    | .vptr (Option.some w) => sizeOfAnotherField is64 e w tag
    | _ => Option.none
  | t, v, tag =>
    if canIntTy t then
      match tag with
      | Tag.lenof target => Option.some (target, toGoInt is64 (asInt v))
      | _ => Option.none
    else if canUintTy t then
      match tag with
      | Tag.lenof target => Option.some (target, toGoInt is64 (Int.ofNat (asNat v)))
      | _ => Option.none
    else Option.none

/-- A custom-encoder hook environment with no implementations
(placeholder `cenc` for programs whose types are not `CustomCapable`). -/
def noCEnc : Nat → Value → ByteOrder → Bytes := fun _ _ _ => []

/-- A custom-decoder hook environment with no implementations. -/
def noCDec : Nat → Value → ByteOrder → Bytes → Except DErr (Value × Bytes) :=
  fun _ _ _ _ => .error (.hook "no custom decoder")

/-- `encodeSliceOrArray` from `encode.go`: elements in order.  The
element encoder is passed as a function (in Go the loop simply re-enters
`encode`), keeping the loop structurally recursive. -/
def encodeSliceOrArray (enc : Value → Bytes) : List Value → Bytes
  | [] => []
  | x :: tl => enc x ++ encodeSliceOrArray enc tl

mutual
/-- `encode` from `encode.go`.  A pointer to every `Ty.custom` type
implements `CustomEncoder`, so the hook check comes first; otherwise the
function dispatches on the kind exactly as the Go `switch`.  Writing to a
byte-list writer cannot fail, so the result is the written bytes. -/
def encode (is64 : Bool) (cenc : Nat → Value → ByteOrder → Bytes) :
    Ty → Value → ByteOrder → Bytes
  | .custom id _, v, order => cenc id v order
  | .bool, v, _ => [if asBool v then 1 else 0]
  | .int, v, order => putUint order (goIntW is64) (toTwos (goIntW is64) (asInt v))
  | .uint, v, order => putUint order (goIntW is64) (asNat v)
  | .int8, v, order => putUint order 1 (toTwos 1 (asInt v))
  | .int16, v, order => putUint order 2 (toTwos 2 (asInt v))
  | .int32, v, order => putUint order 4 (toTwos 4 (asInt v))
  | .int64, v, order => putUint order 8 (toTwos 8 (asInt v))
  | .uint8, v, order => putUint order 1 (asNat v)
  | .uint16, v, order => putUint order 2 (asNat v)
  | .uint32, v, order => putUint order 4 (asNat v)
  | .uint64, v, order => putUint order 8 (asNat v)
  | .float32, v, order => putUint order 4 (asNat v)
  | .float64, v, order => putUint order 8 (asNat v)
  | .str, v, _ => asStr v
  | .slice elem, v, order =>
    if isU8 elem then asBytesList (asSliceList v)
    else encodeSliceOrArray (fun x => encode is64 cenc elem x order) (asSliceList v)
  | .array _ elem, v, order =>
    if isU8 elem then asBytesList (asList v)
    else encodeSliceOrArray (fun x => encode is64 cenc elem x order) (asList v)
  | .struct fs, v, order => encodeFields is64 cenc fs (asList v) order
  | .ptr elem, v, order =>
    match asPtr v with
    | Option.none => encode is64 cenc elem (zeroValue elem) order
    | Option.some w => encode is64 cenc elem w order
  | .iface, _, _ => []

/-- The struct arm of `encode`: fields in declaration order, skipping
`sbin:"-"` and non-exported fields. -/
def encodeFields (is64 : Bool) (cenc : Nat → Value → ByteOrder → Bytes) :
    StructFields → List Value → ByteOrder → Bytes
  | .nil, _, _ => []
  | .cons _ tag exp t rest, vals, order =>
    (if tagSkip tag || !exp then []
     else encode is64 cenc t (vals.headD (zeroValue t)) order) ++
      encodeFields is64 cenc rest vals.tail order
end

/-- `readNumeric`/`binary.Read` of a `w`-byte unsigned chunk. -/
def readUintW (order : ByteOrder) (w : Nat) (bs : Bytes) :
    Except DErr (Nat × Bytes) :=
  match readN w bs with
  | .error e => .error e
  | .ok (chunk, rest) => .ok (getUint order chunk, rest)

/-- `decodeSliceOrArray` from `decode.go`: decode each element in place,
always with a `nil` size.  The element decoder is passed as a function
(in Go the loop simply re-enters `decode`), keeping the loop
structurally recursive. -/
def decodeSliceOrArray (dec : Value → Bytes → Except DErr (Value × Bytes)) :
    List Value → Bytes → Except DErr (List Value × Bytes)
  | [], bs => .ok ([], bs)
  | cur :: tl, bs =>
    match dec cur bs with
    | .error e => .error e
    | .ok (v, bs1) =>
      match decodeSliceOrArray dec tl bs1 with
      | .error e => .error e
      | .ok (vs, bs2) => .ok (v :: vs, bs2)

mutual
/-- `decode` from `decode.go`.  `cur` is the current contents of the
destination (`val`); `size` is the `*int` resolved from the enclosing
struct's `lens` table (`Option.none` = the Go `nil` pointer).  The
`CustomDecoder` hook check comes before the kind switch. -/
def decode (is64 : Bool)
    (cdec : Nat → Value → ByteOrder → Bytes → Except DErr (Value × Bytes)) :
    Ty → Value → ByteOrder → Option Int → Bytes → Except DErr (Value × Bytes)
  | .custom id _, cur, order, _, bs => cdec id cur order bs
  | .bool, _, order, _, bs =>
    match readUintW order 1 bs with
    | .error e => .error e
    | .ok (n, rest) => .ok (.vbool (n != 0), rest)
  | .int, _, order, _, bs =>
    match readUintW order (goIntW is64) bs with
    | .error e => .error e
    | .ok (n, rest) => .ok (.vint (ofTwos (goIntW is64) n), rest)
  | .uint, _, order, _, bs =>
    match readUintW order (goIntW is64) bs with
    | .error e => .error e
    | .ok (n, rest) => .ok (.vuint n, rest)
  | .int8, _, order, _, bs =>
    match readUintW order 1 bs with
    | .error e => .error e
    | .ok (n, rest) => .ok (.vint (ofTwos 1 n), rest)
  | .int16, _, order, _, bs =>
    match readUintW order 2 bs with
    | .error e => .error e
    | .ok (n, rest) => .ok (.vint (ofTwos 2 n), rest)
  | .int32, _, order, _, bs =>
    match readUintW order 4 bs with
    | .error e => .error e
    | .ok (n, rest) => .ok (.vint (ofTwos 4 n), rest)
  | .int64, _, order, _, bs =>
    match readUintW order 8 bs with
    | .error e => .error e
    | .ok (n, rest) => .ok (.vint (ofTwos 8 n), rest)
  | .uint8, _, order, _, bs =>
    match readUintW order 1 bs with
    | .error e => .error e
    | .ok (n, rest) => .ok (.vuint n, rest)
  | .uint16, _, order, _, bs =>
    match readUintW order 2 bs with
    | .error e => .error e
    | .ok (n, rest) => .ok (.vuint n, rest)
  | .uint32, _, order, _, bs =>
    match readUintW order 4 bs with
    | .error e => .error e
    | .ok (n, rest) => .ok (.vuint n, rest)
  | .uint64, _, order, _, bs =>
    match readUintW order 8 bs with
    | .error e => .error e
    | .ok (n, rest) => .ok (.vuint n, rest)
  | .float32, _, order, _, bs =>
    match readUintW order 4 bs with
    | .error e => .error e
    | .ok (n, rest) => .ok (.vuint n, rest)
  | .float64, _, order, _, bs =>
    match readUintW order 8 bs with
    | .error e => .error e
    | .ok (n, rest) => .ok (.vuint n, rest)
  | .str, cur, _, size, bs =>
    match size with
    | Option.none => .error .noSize
    | Option.some n =>
      if n ≤ 0 then .ok (cur, bs)
      else
        match readN n.toNat bs with
        | .error e => .error (.sliceRead e)
        | .ok (buf, rest) => .ok (.vstr buf, rest)
  | .slice elem, cur, order, size, bs =>
    match size with
    | Option.none => .error .noSize
    | Option.some n =>
      if n ≤ 0 then .ok (.vslice (Option.some []), bs)
      else if !isU8 elem then
        -- `val.Grow(size); val.SetLen(size)`: keep the existing elements,
        -- newly exposed ones are freshly zeroed.
        match decodeSliceOrArray
            (fun c cbs => decode is64 cdec elem c order Option.none cbs)
            ((asSliceList cur ++
              List.replicate (n.toNat - (asSliceList cur).length)
                (zeroValue elem)).take n.toNat) bs with
        | .error e => .error e
        | .ok (vs, rest) => .ok (.vslice (Option.some vs), rest)
      else
        match readN n.toNat bs with
        | .error e => .error (.sliceRead e)
        | .ok (buf, rest) => .ok (.vslice (Option.some (buf.map .vuint)), rest)
  | .array n elem, cur, order, _, bs =>
    if !isU8 elem then
      match decodeSliceOrArray
          (fun c cbs => decode is64 cdec elem c order Option.none cbs)
          ((asList cur ++
            List.replicate (n - (asList cur).length) (zeroValue elem)).take n)
          bs with
      | .error e => .error e
      | .ok (vs, rest) => .ok (.vlist vs, rest)
    else
      match readN n bs with
      | .error e => .error (.arrayRead e)
      | .ok (buf, rest) =>
        -- `reflect.Copy(val, reflect.ValueOf(buf))` requires identical
        -- element types and panics for a defined byte type.
        if isExactU8 elem then .ok (.vlist (buf.map .vuint), rest)
        else .error .copyPanic
  | .struct fs, cur, order, _, bs =>
    match decodeFields is64 cdec fs (asList cur) [] order bs with
    | .error e => .error e
    | .ok (vs, rest) => .ok (.vlist vs, rest)
  | .ptr elem, _, order, size, bs =>
    -- `val.Set(reflect.New(elem))`: always a fresh zero referent.
    match decode is64 cdec elem (zeroValue elem) order size bs with
    | .error e => .error e
    | .ok (v, rest) => .ok (.vptr (Option.some v), rest)
  | .iface, cur, _, _, bs => .ok (cur, bs)

/-- The struct arm of `decode`: fields in declaration order, skipping
excluded and non-exported fields, threading the `lens` table that maps a
target field name to its resolved length. -/
def decodeFields (is64 : Bool)
    (cdec : Nat → Value → ByteOrder → Bytes → Except DErr (Value × Bytes)) :
    StructFields → List Value → List (String × Int) → ByteOrder → Bytes →
      Except DErr (List Value × Bytes)
  | .nil, _, _, _, bs => .ok ([], bs)
  | .cons name tag exp t rest, curs, lens, order, bs =>
    let cur := curs.headD (zeroValue t)
    if tagSkip tag || !exp then
      match decodeFields is64 cdec rest curs.tail lens order bs with
      | .error e => .error e
      | .ok (vs, rest1) => .ok (cur :: vs, rest1)
    else
      match decode is64 cdec t cur order (lookupLens lens name) bs with
      | .error e => .error (.field name e)
      | .ok (v, bs1) =>
        let lens1 :=
          match sizeOfAnotherField is64 t v tag with
          | Option.some (target, n) => (target, n) :: lens
          | Option.none => lens
        match decodeFields is64 cdec rest curs.tail lens1 order bs1 with
        | .error e => .error e
        | .ok (vs, bs2) => .ok (v :: vs, bs2)
end

theorem beBytes_length (w v : Nat) : (beBytes w v).length = w := by
  induction w generalizing v with
  | zero => rfl
  | succ w ih => simp [beBytes, ih]

theorem putUint_length (order : ByteOrder) (w v : Nat) :
    (putUint order w v).length = w := by
  cases order <;> simp [putUint, beBytes_length]

theorem beVal_append (xs : Bytes) (b : Nat) :
    beVal (xs ++ [b]) = beVal xs * 256 + b := by
  simp [beVal, List.foldl_append]

theorem pow256 (w : Nat) : 256 ^ w = 2 ^ (8 * w) := by
  rw [show (256 : Nat) = 2 ^ 8 by norm_num, ← pow_mul]

theorem beVal_beBytes (w v : Nat) : beVal (beBytes w v) = v % 256 ^ w := by
  induction w generalizing v with
  | zero => simp [beBytes, beVal, Nat.mod_one]
  | succ w ih =>
    rw [beBytes, beVal_append, ih]
    have h : 256 ^ (w + 1) = 256 * 256 ^ w := by ring
    rw [h, Nat.mod_mul]
    ring

theorem getUint_putUint (order : ByteOrder) (w v : Nat) :
    getUint order (putUint order w v) = v % 2 ^ (8 * w) := by
  cases order <;>
    simp [getUint, putUint, List.reverse_reverse, beVal_beBytes, pow256]

theorem readN_append (w : Nat) (bs rest : Bytes) (h : bs.length = w) :
    readN w (bs ++ rest) = .ok (bs, rest) := by
  subst h
  simp [readN, List.take_left, List.drop_left]

theorem readUintW_append (order : ByteOrder) (w v : Nat) (rest : Bytes) :
    readUintW order w (putUint order w v ++ rest) =
      .ok (v % 2 ^ (8 * w), rest) := by
  rw [readUintW, readN_append w _ _ (putUint_length order w v)]
  simp [getUint_putUint]

theorem toTwos_lt (w : Nat) (i : Int) : toTwos w i < 2 ^ (8 * w) := by
  have hpos : (0 : Int) < 2 ^ (8 * w) := by positivity
  have h2 : i % 2 ^ (8 * w) < 2 ^ (8 * w) := Int.emod_lt_of_pos i hpos
  have h3 : ((2 : Int) ^ (8 * w)) = ((2 ^ (8 * w) : Nat) : Int) := by
    push_cast
    ring
  rw [toTwos]
  omega

theorem ofTwos_toTwos (w : Nat) (i : Int) (hw : 0 < w)
    (h1 : -(2 ^ (8 * w - 1) : Int) ≤ i) (h2 : i < 2 ^ (8 * w - 1)) :
    ofTwos w (toTwos w i) = i := by
  have hsplit : 8 * w = (8 * w - 1) + 1 := by omega
  have hM : (2 : Int) ^ (8 * w) = 2 * 2 ^ (8 * w - 1) := by
    conv_lhs => rw [hsplit]
    rw [pow_succ]
    ring
  have hMn : (2 : Nat) ^ (8 * w) = 2 * 2 ^ (8 * w - 1) := by
    conv_lhs => rw [hsplit]
    rw [pow_succ]
    ring
  have hcast : ((2 ^ (8 * w - 1) : Nat) : Int) = 2 ^ (8 * w - 1) := by
    push_cast
    ring
  rcases le_or_lt 0 i with hpos | hneg
  · have hlt : i < 2 ^ (8 * w) := by omega
    have hmod : i % 2 ^ (8 * w) = i := Int.emod_eq_of_lt hpos hlt
    rw [toTwos, hmod, ofTwos]
    have htn : ((i.toNat : Int)) = i := Int.toNat_of_nonneg hpos
    have hbr : i.toNat < 2 ^ (8 * w - 1) := by omega
    simp only [if_pos hbr]
    omega
  · have hmod : i % 2 ^ (8 * w) = i + 2 ^ (8 * w) := by
      have heq : (i + 2 ^ (8 * w)) % 2 ^ (8 * w) = i % 2 ^ (8 * w) := by
        simp [Int.add_mul_emod_self_left]
      have hlo : 0 ≤ i + 2 ^ (8 * w) := by omega
      have hhi : i + 2 ^ (8 * w) < 2 ^ (8 * w) := by omega
      rw [← heq, Int.emod_eq_of_lt hlo hhi]
    rw [toTwos, hmod, ofTwos]
    have hbr : ¬ (i + 2 ^ (8 * w)).toNat < 2 ^ (8 * w - 1) := by omega
    simp only [if_neg hbr]
    omega

/-- Whether decoding a type consults the resolved size: strings and
slices need it, pointers pass it through to their referent. -/
def needsSize : Ty → Bool
  | .str => true
  | .slice _ => true
  | .ptr e => needsSize e
  | _ => false

/-- The number of elements a variable-length value actually holds (the
length its designator must carry for a faithful round trip); pointers
defer to the referent, a nil referent to the zero value's length `0`. -/
def valLen : Value → Nat
  | .vstr s => s.length
  | .vslice (Option.some xs) => xs.length
  | .vptr (Option.some v) => valLen v
  | _ => 0

/-- Elementwise application of a value transformation (structural helper
for `normVal` on slices and arrays). -/
def mapValues (f : Value → Value) : List Value → List Value
  | [] => []
  | x :: tl => f x :: mapValues f tl

mutual
/-- The value `decode` reconstructs from `encode`'s output of `v`: the
identity except that nil pointers come back as fresh decoded zero
referents, present pointers stay present, and nil slices come back as
present empty slices. -/
def normVal : Ty → Value → Value
  | .slice elem, v => .vslice (Option.some (mapValues (normVal elem) (asSliceList v)))
  | .array _ elem, v => .vlist (mapValues (normVal elem) (asList v))
  | .struct fs, v => .vlist (normValFields fs (asList v))
  | .ptr elem, v =>
    match asPtr v with
    | Option.none => .vptr (Option.some (normVal elem (zeroValue elem)))
    | Option.some w => .vptr (Option.some (normVal elem w))
  | _, v => v

/-- Fieldwise normalization; skipped fields are left untouched. -/
def normValFields : StructFields → List Value → List Value
  | .nil, _ => []
  | .cons _ tag exp t rest, vals =>
    (if tagSkip tag || !exp then vals.headD (zeroValue t)
     else normVal t (vals.headD (zeroValue t))) :: normValFields rest vals.tail
end

/-- Number of declared fields of a struct type. -/
def fieldCount : StructFields → Nat
  | .nil => 0
  | .cons _ _ _ _ rest => fieldCount rest + 1

/-- A raw byte value, as stored in a slice or array of byte kind. -/
def isByteVal (x : Value) : Prop := ∃ n, x = Value.vuint n ∧ n < 2 ^ 8

/-- Elementwise goodness (structural helper: the element predicate is
passed as a function). -/
def GoodElems (P : Value → Prop) : List Value → Prop
  | [] => True
  | x :: tl => P x ∧ GoodElems P tl

mutual
/-- Round-trippable values: well-typed and in range for their type, with
every variable-length component governed by a consistent, earlier length
designator, skipped (excluded / non-exported / interface) fields at their
zero value, and custom hooks that reproduce the value they encoded.
Elements of byte-kind slices are raw bytes (the code's fast path reads
and writes them without entering the traversal or any hook), and arrays
of defined byte types are excluded: decoding them panics in
`reflect.Copy`. -/
def Good (is64 : Bool) (cenc : Nat → Value → ByteOrder → Bytes)
    (cdec : Nat → Value → ByteOrder → Bytes → Except DErr (Value × Bytes)) :
    Ty → Value → Prop
  | .bool, v => ∃ b, v = .vbool b
  | .int, v => ∃ i, v = .vint i ∧
      -((2 : Int) ^ (8 * goIntW is64 - 1)) ≤ i ∧ i < 2 ^ (8 * goIntW is64 - 1)
  | .int8, v => ∃ i, v = .vint i ∧ -((2 : Int) ^ (8 * 1 - 1)) ≤ i ∧ i < 2 ^ (8 * 1 - 1)
  | .int16, v => ∃ i, v = .vint i ∧ -((2 : Int) ^ (8 * 2 - 1)) ≤ i ∧ i < 2 ^ (8 * 2 - 1)
  | .int32, v => ∃ i, v = .vint i ∧ -((2 : Int) ^ (8 * 4 - 1)) ≤ i ∧ i < 2 ^ (8 * 4 - 1)
  | .int64, v => ∃ i, v = .vint i ∧ -((2 : Int) ^ (8 * 8 - 1)) ≤ i ∧ i < 2 ^ (8 * 8 - 1)
  | .uint, v => ∃ n, v = .vuint n ∧ n < 2 ^ (8 * goIntW is64)
  | .uint8, v => ∃ n, v = .vuint n ∧ n < 2 ^ (8 * 1)
  | .uint16, v => ∃ n, v = .vuint n ∧ n < 2 ^ (8 * 2)
  | .uint32, v => ∃ n, v = .vuint n ∧ n < 2 ^ (8 * 4)
  | .uint64, v => ∃ n, v = .vuint n ∧ n < 2 ^ (8 * 8)
  | .float32, v => ∃ n, v = .vuint n ∧ n < 2 ^ (8 * 4)
  | .float64, v => ∃ n, v = .vuint n ∧ n < 2 ^ (8 * 8)
  | .str, v => ∃ s, v = .vstr s ∧ ∀ b ∈ s, b < 256
  | .slice elem, v => (∃ o, v = .vslice o) ∧ needsSize elem = false ∧
      (if isU8 elem then GoodElems isByteVal (asSliceList v)
       else GoodElems (Good is64 cenc cdec elem) (asSliceList v))
  | .array n elem, v => ∃ xs, v = .vlist xs ∧ xs.length = n ∧
      needsSize elem = false ∧ (isU8 elem = true → elem = .uint8) ∧
      GoodElems (Good is64 cenc cdec elem) xs
  | .struct fs, v => ∃ xs, v = .vlist xs ∧ xs.length = fieldCount fs ∧
      GoodFields is64 cenc cdec [] fs xs
  | .ptr elem, v =>
      (v = .vptr Option.none ∧ Good is64 cenc cdec elem (zeroValue elem)) ∨
      (∃ w, v = .vptr (Option.some w) ∧ Good is64 cenc cdec elem w)
  | .iface, v => v = .vnone
  | .custom id under, v => ∀ order rest,
      cdec id (zeroValue under) order (cenc id v order ++ rest) = .ok (v, rest)

/-- Fieldwise goodness under a `lens` table: skipped fields hold their
zero value; a visible variable-length field's resolved length equals its
actual length; the table evolves exactly as `decodeFields` evolves it
(note `sizeOfAnotherField` is applied to the decoded, i.e. normalized,
field value). -/
def GoodFields (is64 : Bool) (cenc : Nat → Value → ByteOrder → Bytes)
    (cdec : Nat → Value → ByteOrder → Bytes → Except DErr (Value × Bytes)) :
    List (String × Int) → StructFields → List Value → Prop
  | _, .nil, _ => True
  | lens, .cons name tag exp t rest, vals =>
    if tagSkip tag || !exp then
      vals.headD (zeroValue t) = zeroValue t ∧
        GoodFields is64 cenc cdec lens rest vals.tail
    else
      Good is64 cenc cdec t (vals.headD (zeroValue t)) ∧
      (needsSize t = true →
        lookupLens lens name =
          Option.some ((valLen (vals.headD (zeroValue t)) : Int))) ∧
      GoodFields is64 cenc cdec
        (match sizeOfAnotherField is64 t (normVal t (vals.headD (zeroValue t))) tag with
         | Option.some (target, n) => (target, n) :: lens
         | Option.none => lens)
        rest vals.tail
end

/-- The size argument `decode` must receive for a faithful round trip:
exact for strings and slices, passed through pointers, arbitrary
elsewhere. -/
def SzOK : Ty → Value → Option Int → Prop
  | .str, v, sz => sz = Option.some ((valLen v : Int))
  | .slice _, v, sz => sz = Option.some ((valLen v : Int))
  | .ptr e, v, sz =>
    match asPtr v with
    | Option.none => SzOK e (zeroValue e) sz
    | Option.some w => SzOK e w sz
  | _, _, _ => True

theorem getUint_single (order : ByteOrder) (c : Nat) : getUint order [c] = c := by
  cases order <;> simp [getUint, beVal]

theorem valLen_zeroValue (t : Ty) : valLen (zeroValue t) = 0 := by
  match t with
  | .custom _ u => rw [zeroValue]; exact valLen_zeroValue u
  | .bool | .int | .int8 | .int16 | .int32 | .int64 | .uint | .uint8
  | .uint16 | .uint32 | .uint64 | .float32 | .float64 | .str | .slice _
  | .array _ _ | .struct _ | .ptr _ | .iface => simp [zeroValue, valLen]

theorem szOK_needsSize (is64 : Bool) (cenc : Nat → Value → ByteOrder → Bytes)
    (cdec : Nat → Value → ByteOrder → Bytes → Except DErr (Value × Bytes))
    (t : Ty) (v : Value) (hg : Good is64 cenc cdec t v)
    (hn : needsSize t = true) : SzOK t v (Option.some ((valLen v : Int))) := by
  match t with
  | .str => simp [SzOK]
  | .slice e => simp [SzOK]
  | .ptr e =>
    have hne : needsSize e = true := by simpa [needsSize] using hn
    rw [Good] at hg
    rcases hg with ⟨hv, hz⟩ | ⟨w, hv, hw⟩
    · subst hv
      have h0 : valLen (Value.vptr Option.none) = 0 := by simp [valLen]
      rw [SzOK]
      simp only [asPtr, h0]
      have := szOK_needsSize is64 cenc cdec e (zeroValue e) hz hne
      rwa [valLen_zeroValue] at this
    · subst hv
      rw [SzOK]
      simp only [asPtr, valLen]
      exact szOK_needsSize is64 cenc cdec e w hw hne
  | .bool | .int | .int8 | .int16 | .int32 | .int64 | .uint | .uint8
  | .uint16 | .uint32 | .uint64 | .float32 | .float64 | .array _ _
  | .struct _ | .iface | .custom _ _ => simp [needsSize] at hn

theorem szOK_any (t : Ty) (v : Value) (sz : Option Int)
    (hn : needsSize t = false) : SzOK t v sz := by
  match t with
  | .str | .slice _ => simp [needsSize] at hn
  | .ptr e =>
    have hne : needsSize e = false := by simpa [needsSize] using hn
    rw [SzOK]
    cases hp : asPtr v with
    | none => exact szOK_any e (zeroValue e) sz hne
    | some w => exact szOK_any e w sz hne
  | .bool | .int | .int8 | .int16 | .int32 | .int64 | .uint | .uint8
  | .uint16 | .uint32 | .uint64 | .float32 | .float64 | .array _ _
  | .struct _ | .iface | .custom _ _ => simp [SzOK]

theorem goodList_u8 (is64 : Bool) (cenc : Nat → Value → ByteOrder → Bytes)
    (cdec : Nat → Value → ByteOrder → Bytes → Except DErr (Value × Bytes))
    (xs : List Value) (hg : GoodElems (Good is64 cenc cdec .uint8) xs) :
    (asBytesList xs).map Value.vuint = xs := by
  induction xs with
  | nil => simp [asBytesList]
  | cons x tl ih =>
    rw [GoodElems] at hg
    obtain ⟨⟨n, hx, _⟩, htl⟩ := by
      simpa [Good] using hg
    subst hx
    simp [asBytesList, asNat] at ih ⊢
    exact ih htl

theorem normList_u8 (xs : List Value) : mapValues (normVal .uint8) xs = xs := by
  induction xs with
  | nil => rw [mapValues]
  | cons x tl ih =>
    rw [mapValues, normVal, ih] <;> simp

theorem mapValues_id (xs : List Value) : mapValues (fun x => x) xs = xs := by
  induction xs with
  | nil => rw [mapValues]
  | cons x tl ih => rw [mapValues, ih]

theorem byteElems_map (xs : List Value) (hg : GoodElems isByteVal xs) :
    (asBytesList xs).map Value.vuint = xs := by
  induction xs with
  | nil => simp [asBytesList]
  | cons x tl ih =>
    rw [GoodElems] at hg
    obtain ⟨⟨n, hx, _⟩, htl⟩ := hg
    subst hx
    simp [asBytesList, asNat] at ih ⊢
    exact ih htl

theorem mapValues_normVal_id (elem : Ty) (hI : isU8 elem = true)
    (xs : List Value) : mapValues (normVal elem) xs = xs := by
  have hx : ∀ x, normVal elem x = x := by
    intro x
    cases elem <;> first
      | (rw [normVal] <;> simp)
      | simp [isU8] at hI
  induction xs with
  | nil => rw [mapValues]
  | cons x tl ih => rw [mapValues, hx, ih]

mutual
/-- Round trip: decoding (into a zero destination, with the size a
faithful struct context would resolve) the bytes `encode` produced for a
`Good` value yields its normalization and consumes exactly its bytes. -/
theorem decEnc (is64 : Bool) (cenc : Nat → Value → ByteOrder → Bytes)
    (cdec : Nat → Value → ByteOrder → Bytes → Except DErr (Value × Bytes))
    (t : Ty) (v : Value) (order : ByteOrder) (sz : Option Int) (rest : Bytes)
    (hg : Good is64 cenc cdec t v) (hs : SzOK t v sz) :
    decode is64 cdec t (zeroValue t) order sz
      (encode is64 cenc t v order ++ rest) = .ok (normVal t v, rest) := by
  cases t with
  | custom id u =>
    rw [Good] at hg
    have h := hg order rest
    rw [encode, decode, zeroValue] at *
    rw [h]
    simp [normVal]
  | bool =>
    rw [Good] at hg
    obtain ⟨b, hv⟩ := hg
    subst hv
    have h1 := readN_append 1 [if b then 1 else 0] rest (by simp)
    simp only [encode, decode, readUintW, asBool, h1, getUint_single]
    cases b <;> simp [normVal]
  | int =>
    rw [Good] at hg
    obtain ⟨i, hv, hlo, hhi⟩ := hg
    subst hv
    have hw : 0 < goIntW is64 := by cases is64 <;> simp [goIntW]
    have h1 := readUintW_append order (goIntW is64) (toTwos (goIntW is64) i) rest
    rw [Nat.mod_eq_of_lt (toTwos_lt (goIntW is64) i)] at h1
    have h3 := ofTwos_toTwos (goIntW is64) i hw hlo hhi
    simp [encode, decode, asInt, h1, h3, normVal]
  | int8 =>
    rw [Good] at hg
    obtain ⟨i, hv, hlo, hhi⟩ := hg
    subst hv
    have h1 := readUintW_append order 1 (toTwos 1 i) rest
    rw [Nat.mod_eq_of_lt (toTwos_lt 1 i)] at h1
    have h3 := ofTwos_toTwos 1 i (by norm_num) hlo hhi
    simp [encode, decode, asInt, h1, h3, normVal]
  | int16 =>
    rw [Good] at hg
    obtain ⟨i, hv, hlo, hhi⟩ := hg
    subst hv
    have h1 := readUintW_append order 2 (toTwos 2 i) rest
    rw [Nat.mod_eq_of_lt (toTwos_lt 2 i)] at h1
    have h3 := ofTwos_toTwos 2 i (by norm_num) hlo hhi
    simp [encode, decode, asInt, h1, h3, normVal]
  | int32 =>
    rw [Good] at hg
    obtain ⟨i, hv, hlo, hhi⟩ := hg
    subst hv
    have h1 := readUintW_append order 4 (toTwos 4 i) rest
    rw [Nat.mod_eq_of_lt (toTwos_lt 4 i)] at h1
    have h3 := ofTwos_toTwos 4 i (by norm_num) hlo hhi
    simp [encode, decode, asInt, h1, h3, normVal]
  | int64 =>
    rw [Good] at hg
    obtain ⟨i, hv, hlo, hhi⟩ := hg
    subst hv
    have h1 := readUintW_append order 8 (toTwos 8 i) rest
    rw [Nat.mod_eq_of_lt (toTwos_lt 8 i)] at h1
    have h3 := ofTwos_toTwos 8 i (by norm_num) hlo hhi
    simp [encode, decode, asInt, h1, h3, normVal]
  | uint =>
    rw [Good] at hg
    obtain ⟨n, hv, hb⟩ := hg
    subst hv
    have h1 := readUintW_append order (goIntW is64) n rest
    rw [Nat.mod_eq_of_lt hb] at h1
    simp [encode, decode, asNat, h1, normVal]
  | uint8 =>
    rw [Good] at hg
    obtain ⟨n, hv, hb⟩ := hg
    subst hv
    have h1 := readUintW_append order 1 n rest
    rw [Nat.mod_eq_of_lt hb] at h1
    simp [encode, decode, asNat, h1, normVal]
  | uint16 =>
    rw [Good] at hg
    obtain ⟨n, hv, hb⟩ := hg
    subst hv
    have h1 := readUintW_append order 2 n rest
    rw [Nat.mod_eq_of_lt hb] at h1
    simp [encode, decode, asNat, h1, normVal]
  | uint32 =>
    rw [Good] at hg
    obtain ⟨n, hv, hb⟩ := hg
    subst hv
    have h1 := readUintW_append order 4 n rest
    rw [Nat.mod_eq_of_lt hb] at h1
    simp [encode, decode, asNat, h1, normVal]
  | uint64 =>
    rw [Good] at hg
    obtain ⟨n, hv, hb⟩ := hg
    subst hv
    have h1 := readUintW_append order 8 n rest
    rw [Nat.mod_eq_of_lt hb] at h1
    simp [encode, decode, asNat, h1, normVal]
  | float32 =>
    rw [Good] at hg
    obtain ⟨n, hv, hb⟩ := hg
    subst hv
    have h1 := readUintW_append order 4 n rest
    rw [Nat.mod_eq_of_lt hb] at h1
    simp [encode, decode, asNat, h1, normVal]
  | float64 =>
    rw [Good] at hg
    obtain ⟨n, hv, hb⟩ := hg
    subst hv
    have h1 := readUintW_append order 8 n rest
    rw [Nat.mod_eq_of_lt hb] at h1
    simp [encode, decode, asNat, h1, normVal]
  | str =>
    rw [Good] at hg
    obtain ⟨s, hv, _⟩ := hg
    subst hv
    rw [SzOK] at hs
    simp only [valLen] at hs
    subst hs
    cases s with
    | nil => simp [encode, decode, asStr, zeroValue, normVal]
    | cons a tl =>
      have h1 := readN_append (a :: tl).length (a :: tl) rest rfl
      simp only [encode, decode, asStr]
      rw [if_neg (by simp), Int.toNat_natCast, h1]
      simp [normVal]
  | slice elem =>
    rw [Good] at hg
    obtain ⟨⟨o, hv⟩, hne, hgl⟩ := hg
    subst hv
    rw [SzOK] at hs
    subst hs
    rcases ho : o with _ | xs
    · subst ho
      have henc : encode is64 cenc (.slice elem) (.vslice Option.none) order = [] := by
        rw [encode]
        cases hI : isU8 elem <;> simp [asSliceList, asBytesList, encodeSliceOrArray]
      rw [henc]
      simp [decode, valLen, normVal, asSliceList, mapValues]
    · subst ho
      cases xs with
      | nil =>
        have henc : encode is64 cenc (.slice elem) (.vslice (Option.some [])) order = [] := by
          rw [encode]
          cases hI : isU8 elem <;> simp [asSliceList, asBytesList, encodeSliceOrArray]
        rw [henc]
        simp [decode, valLen, normVal, asSliceList, mapValues]
      | cons x tl =>
        have hpos : ¬ ((((x :: tl).length : Nat) : Int) ≤ 0) := by simp
        cases hI : isU8 elem
        · -- general element type
          simp only [hI, Bool.false_eq_true, if_false, asSliceList] at hgl
          have hlist := decEncList is64 cenc cdec elem (x :: tl) order rest hne hgl
          simp only [encode, decode, asSliceList, hI, valLen]
          simp only [Bool.false_eq_true, if_false, hpos, zeroValue, Bool.not_false,
            if_true]
          simp only [List.nil_append, List.length_nil, Nat.sub_zero, Int.toNat_natCast,
            List.take_replicate, min_self]
          rw [hlist]
          simp [normVal, asSliceList]
        · -- byte-kind fast path: raw bytes, hooks of defined byte types
          -- are bypassed
          have hgl2 : GoodElems isByteVal (x :: tl) := by
            simpa [hI, asSliceList] using hgl
          have hmap := byteElems_map (x :: tl) hgl2
          have hlenb : (asBytesList (x :: tl)).length = (x :: tl).length := by
            simp [asBytesList]
          have h1 := readN_append (x :: tl).length (asBytesList (x :: tl)) rest hlenb
          simp only [encode, decode, asSliceList, hI, valLen]
          rw [if_neg (by simp), Int.toNat_natCast]
          simp only [Bool.not_true, Bool.false_eq_true, if_false, if_true]
          rw [h1]
          simp [hmap, normVal, asSliceList, mapValues_normVal_id elem hI]
  | array n elem =>
    rw [Good] at hg
    obtain ⟨xs, hv, hlen, hne, hbyte, hgl⟩ := hg
    subst hv
    cases hI : isU8 elem
    · have hlist := decEncList is64 cenc cdec elem xs order rest hne hgl
      simp only [encode, decode, asList, hI, zeroValue]
      simp only [Bool.false_eq_true, if_false, Bool.not_false, if_true]
      simp only [List.length_replicate, Nat.sub_self, List.replicate_zero,
        List.append_nil, List.take_replicate, min_self]
      rw [hlen] at *
      rw [hlist]
      simp [normVal, asList]
    · -- `reflect.Copy` requires the element type to be `uint8` itself
      have helem : elem = .uint8 := hbyte hI
      subst helem
      have hmap := goodList_u8 is64 cenc cdec xs hgl
      have hlenb : (asBytesList xs).length = n := by simp [asBytesList, hlen]
      have h1 := readN_append n (asBytesList xs) rest hlenb
      simp only [encode, decode, asList, hI]
      simp [h1, hmap, normVal, asList, normList_u8, mapValues_id, isExactU8]
  | struct fs =>
    rw [Good] at hg
    obtain ⟨xs, hv, _, hgf⟩ := hg
    subst hv
    have h := decEncFields is64 cenc cdec fs xs [] order rest hgf
    simp only [encode, decode, zeroValue, asList]
    rw [h]
    simp [normVal, asList]
  | ptr elem =>
    rw [Good] at hg
    rw [SzOK] at hs
    rcases hg with ⟨hv, hz⟩ | ⟨w, hv, hw⟩
    · subst hv
      simp only [asPtr] at hs
      have ih := decEnc is64 cenc cdec elem (zeroValue elem) order sz rest hz hs
      simp only [encode, decode, asPtr]
      rw [ih]
      simp [normVal, asPtr]
    · subst hv
      simp only [asPtr] at hs
      have ih := decEnc is64 cenc cdec elem w order sz rest hw hs
      simp only [encode, decode, asPtr]
      rw [ih]
      simp [normVal, asPtr]
  | iface =>
    rw [Good] at hg
    subst hg
    simp [encode, decode, zeroValue, normVal]
termination_by (sizeOf t, 0)
decreasing_by all_goals (subst_vars; simp_wf; omega)

/-- Round trip for the element loop of slices and arrays: every element
decodes with a `nil` size into a fresh zero destination. -/
theorem decEncList (is64 : Bool) (cenc : Nat → Value → ByteOrder → Bytes)
    (cdec : Nat → Value → ByteOrder → Bytes → Except DErr (Value × Bytes))
    (elem : Ty) (xs : List Value) (order : ByteOrder) (rest : Bytes)
    (hne : needsSize elem = false)
    (hgl : GoodElems (Good is64 cenc cdec elem) xs) :
    decodeSliceOrArray (fun c cbs => decode is64 cdec elem c order Option.none cbs)
      (List.replicate xs.length (zeroValue elem))
      (encodeSliceOrArray (fun x => encode is64 cenc elem x order) xs ++ rest) =
      .ok (mapValues (normVal elem) xs, rest) := by
  cases xs with
  | nil => simp [encodeSliceOrArray, decodeSliceOrArray, mapValues]
  | cons x tl =>
    rw [GoodElems] at hgl
    obtain ⟨hx, htl⟩ := hgl
    have hsz := szOK_any elem x Option.none hne
    have ih1 := decEnc is64 cenc cdec elem x order Option.none
      (encodeSliceOrArray (fun x => encode is64 cenc elem x order) tl ++ rest) hx hsz
    have ih2 := decEncList is64 cenc cdec elem tl order rest hne htl
    rw [List.length_cons, List.replicate_succ, decodeSliceOrArray, encodeSliceOrArray,
      List.append_assoc]
    simp [ih1, ih2, mapValues]
termination_by (sizeOf elem, xs.length + 1)
decreasing_by all_goals (subst_vars; simp_wf; omega)

/-- Round trip for the struct field loop, for any `lens` table consistent
with the values (`GoodFields`). -/
theorem decEncFields (is64 : Bool) (cenc : Nat → Value → ByteOrder → Bytes)
    (cdec : Nat → Value → ByteOrder → Bytes → Except DErr (Value × Bytes))
    (fs : StructFields) (vals : List Value) (lens : List (String × Int))
    (order : ByteOrder) (rest : Bytes)
    (hgf : GoodFields is64 cenc cdec lens fs vals) :
    decodeFields is64 cdec fs (zeroFields fs) lens order
      (encodeFields is64 cenc fs vals order ++ rest) =
      .ok (normValFields fs vals, rest) := by
  cases fs with
  | nil => simp [decodeFields, encodeFields, normValFields]
  | cons name tag exp t frest =>
    rw [GoodFields] at hgf
    cases hskip : (tagSkip tag || !exp) with
    | true =>
      rw [if_pos hskip] at hgf
      obtain ⟨hzero, hrest⟩ := hgf
      have ih := decEncFields is64 cenc cdec frest vals.tail lens order rest hrest
      have hzero2 : vals.head?.getD (zeroValue t) = zeroValue t := by
        simpa using hzero
      rw [zeroFields, encodeFields, decodeFields]
      simp [hskip, hzero, hzero2, ih, normValFields]
    | false =>
      rw [if_neg (by simp [hskip])] at hgf
      obtain ⟨hgood, hlen, hrest⟩ := hgf
      have hsz : SzOK t (vals.headD (zeroValue t)) (lookupLens lens name) := by
        cases hn : needsSize t with
        | true =>
          rw [hlen hn]
          exact szOK_needsSize is64 cenc cdec t (vals.headD (zeroValue t)) hgood hn
        | false => exact szOK_any t (vals.headD (zeroValue t)) (lookupLens lens name) hn
      have ih1 := decEnc is64 cenc cdec t (vals.headD (zeroValue t)) order
        (lookupLens lens name)
        (encodeFields is64 cenc frest vals.tail order ++ rest) hgood hsz
      have ih2 := decEncFields is64 cenc cdec frest vals.tail
        (match sizeOfAnotherField is64 t
            (normVal t (vals.headD (zeroValue t))) tag with
         | Option.some (target, n) => (target, n) :: lens
         | Option.none => lens) order rest hrest
      rw [zeroFields, encodeFields, decodeFields]
      simp only [hskip, Bool.false_eq_true, if_false, List.headD_cons, List.tail_cons,
        List.append_assoc]
      rw [ih1]
      simp only [ih2, normValFields, hskip, Bool.false_eq_true, if_false]
termination_by (sizeOf fs, 0)
decreasing_by all_goals (subst_vars; simp_wf; omega)
end

/-- The aggregate of claim C2: `{Size uint32 lenof:Payload; Payload []byte}`. -/
def sizedPayload : Ty :=
  .struct (.cons "Size" (Tag.lenof "Payload") true .uint32
    (.cons "Payload" Tag.none true (.slice .uint8) .nil))

/-- Its instance `Size=5, Payload=[0,1,2,3,4]`. -/
def sizedPayloadVal : Value :=
  .vlist [.vuint 5, .vslice (Option.some ([0, 1, 2, 3, 4].map .vuint))]

/-- C2: encoding `{Size=5, Payload=[0,1,2,3,4]}` big-endian yields exactly
the nine bytes `00 00 00 05 00 01 02 03 04` (fields concatenated in
declaration order, no framing), and decoding those bytes reconstructs the
same instance, on either platform width. -/
theorem C2_sized_payload_exact_bytes (is64 : Bool) :
    encode is64 noCEnc sizedPayload sizedPayloadVal .big =
      [0, 0, 0, 5, 0, 1, 2, 3, 4] ∧
    decode is64 noCDec sizedPayload (zeroValue sizedPayload) .big Option.none
      [0, 0, 0, 5, 0, 1, 2, 3, 4] = .ok (sizedPayloadVal, []) := by
  cases is64 <;> exact ⟨rfl, rfl⟩

/-- C4: a nil pointer field encodes exactly like a present zero-valued
referent (no nil marker on the wire), and decoding a pointer always
allocates a fresh zero referent and decodes into it, so the result is
never nil. -/
theorem C4_optional_normalization (is64 : Bool)
    (cenc : Nat → Value → ByteOrder → Bytes)
    (cdec : Nat → Value → ByteOrder → Bytes → Except DErr (Value × Bytes))
    (e : Ty) (cur : Value) (order : ByteOrder) (sz : Option Int) (bs : Bytes) :
    encode is64 cenc (.ptr e) (.vptr Option.none) order =
      encode is64 cenc (.ptr e) (.vptr (Option.some (zeroValue e))) order ∧
    decode is64 cdec (.ptr e) cur order sz bs =
      (decode is64 cdec e (zeroValue e) order sz bs).map
        (fun p => (.vptr (Option.some p.1), p.2)) := by
  constructor
  · simp only [encode, asPtr]
  · rw [decode]
    cases h : decode is64 cdec e (zeroValue e) order sz bs with
    | error e => simp [Except.map]
    | ok p => simp [Except.map]

/-- C6 counterexample: with resolved length `0`, the string arm does not
set the field to the empty string; it leaves the destination unchanged
(here `"a"`, byte 97) and consumes nothing, so the claim's "sets that
field to an empty container" fails for strings on a reused destination. -/
theorem C6_counterexample :
    decode true noCDec .str (.vstr [97]) .big (Option.some 0) [1, 2] =
      .ok (.vstr [97], [1, 2]) ∧ Value.vstr [97] ≠ Value.vstr [] :=
  ⟨rfl, by simp⟩

/-- C6 amended: with resolved length `0` (or any non-positive length),
zero bytes are consumed; a slice field is set to a present empty slice,
while a string field is left unchanged — which yields the empty string
exactly when the destination is freshly zeroed. -/
theorem C6_zero_length_amended (is64 : Bool)
    (cdec : Nat → Value → ByteOrder → Bytes → Except DErr (Value × Bytes))
    (e : Ty) (cur : Value) (order : ByteOrder) (bs : Bytes) :
    decode is64 cdec .str (zeroValue .str) order (Option.some 0) bs =
      .ok (.vstr [], bs) ∧
    decode is64 cdec .str cur order (Option.some 0) bs = .ok (cur, bs) ∧
    decode is64 cdec (.slice e) cur order (Option.some 0) bs =
      .ok (.vslice (Option.some []), bs) := by
  refine ⟨?_, ?_, ?_⟩ <;> simp [decode, zeroValue]

/-- A concrete custom-encoder hook used for C7: always writes `[7]`. -/
def cencX : Nat → Value → ByteOrder → Bytes := fun _ _ _ => [7]

/-- A concrete custom-decoder hook used for C7: returns `9` and consumes
one byte. -/
def cdecX : Nat → Value → ByteOrder → Bytes → Except DErr (Value × Bytes) :=
  fun _ _ _ bs => .ok (.vint 9, bs.drop 1)

/-- C7 counterexample: hooks are NOT invoked for every occurrence of a
custom-capable type.  A defined byte type (`Ty.custom 0 .uint8`, kind
`uint8`) inside a slice takes the raw byte fast path: its bytes are the
element values `[1, 2]`, not the hook's output `[7] ++ [7]`, and decode
reads raw bytes back instead of calling the hook; inside an array of the
same type, decode does not reach the hook either — it aborts with the
`reflect.Copy` panic. -/
theorem C7_counterexample :
    encode true cencX (.slice (.custom 0 .uint8))
      (.vslice (Option.some [.vuint 1, .vuint 2])) .big = [1, 2] ∧
    cencX 0 (.vuint 1) .big ++ cencX 0 (.vuint 2) .big = [7, 7] ∧
    ([1, 2] : Bytes) ≠ [7, 7] ∧
    decode true cdecX (.slice (.custom 0 .uint8)) (.vslice Option.none) .big
      (Option.some 2) [1, 2, 3] =
      .ok (.vslice (Option.some [.vuint 1, .vuint 2]), [3]) ∧
    cdecX 0 (zeroValue .uint8) .big [1, 2, 3] = .ok (.vint 9, [2, 3]) ∧
    decode true cdecX (.array 2 (.custom 0 .uint8))
      (zeroValue (.array 2 (.custom 0 .uint8))) .big Option.none [1, 2, 3] =
      .error .copyPanic :=
  ⟨rfl, rfl, by decide, rfl, rfl, rfl⟩

/-- C7 (amended): for a custom-capable type at top level, as a struct
field, or as an element of a slice or array whose element kind is not
byte, `encode`/`decode` invoke the type's own hook and perform none of
the default shape-based traversal (the bytes are exactly the hooks'
bytes, for arbitrary hooks).  The exception: elements of byte-kind
slices and arrays take the raw byte fast path and their hooks are
bypassed (and decoding an array of a defined byte type panics in
`reflect.Copy`). -/
theorem C7_custom_hook_amended (is64 : Bool)
    (cenc : Nat → Value → ByteOrder → Bytes)
    (cdec : Nat → Value → ByteOrder → Bytes → Except DErr (Value × Bytes))
    (id : Nat) (u : Ty) (v v1 v2 cur w1 w2 : Value) (order : ByteOrder)
    (sz : Option Int) (bs bs1 bs2 : Bytes) (hu : isU8 u = false)
    (h1 : cdec id (zeroValue u) order bs = .ok (w1, bs1))
    (h2 : cdec id (zeroValue u) order bs1 = .ok (w2, bs2)) :
    encode is64 cenc (.custom id u) v order = cenc id v order ∧
    decode is64 cdec (.custom id u) cur order sz bs = cdec id cur order bs ∧
    encode is64 cenc (.struct (.cons "F" Tag.none true (.custom id u) .nil))
      (.vlist [v]) order = cenc id v order ∧
    encode is64 cenc (.slice (.custom id u)) (.vslice (Option.some [v1, v2]))
      order = cenc id v1 order ++ cenc id v2 order ∧
    decode is64 cdec (.slice (.custom id u)) (.vslice Option.none) order
      (Option.some 2) bs = .ok (.vslice (Option.some [w1, w2]), bs2) ∧
    encode is64 cenc (.array 2 (.custom id u)) (.vlist [v1, v2]) order =
      cenc id v1 order ++ cenc id v2 order ∧
    decode is64 cdec (.array 2 (.custom id u))
      (zeroValue (.array 2 (.custom id u))) order sz bs =
      .ok (.vlist [w1, w2], bs2) ∧
    encode is64 cenc (.slice (.custom id .uint8)) v order =
      asBytesList (asSliceList v) := by
  refine ⟨?_, ?_, ?_, ?_, ?_, ?_, ?_, ?_⟩
  · rw [encode]
  · rw [decode]
  · simp [encode, encodeFields, tagSkip, asList]
  · simp [encode, isU8, hu, asSliceList, encodeSliceOrArray]
  · simp [decode, decodeSliceOrArray, zeroValue, asSliceList, isU8, hu,
      List.replicate, h1, h2]
  · simp [encode, isU8, hu, asList, encodeSliceOrArray]
  · simp [decode, decodeSliceOrArray, zeroValue, asList, isU8, hu,
      List.replicate, h1, h2]
  · simp [encode, isU8]

theorem C7_custom_hook_amended_witness :
    (isU8 .bool = false ∧
     cdecX 0 (zeroValue .bool) .big [1, 2, 3] = .ok (.vint 9, [2, 3]) ∧
     cdecX 0 (zeroValue .bool) .big [2, 3] = .ok (.vint 9, [3])) ∧
    (encode true cencX (.custom 0 .bool) .vnone .big = cencX 0 .vnone .big ∧
     decode true cdecX (.custom 0 .bool) .vnone .big Option.none [1, 2, 3] =
       cdecX 0 .vnone .big [1, 2, 3] ∧
     encode true cencX (.struct (.cons "F" Tag.none true (.custom 0 .bool) .nil))
       (.vlist [.vnone]) .big = cencX 0 .vnone .big ∧
     encode true cencX (.slice (.custom 0 .bool))
       (.vslice (Option.some [.vnone, .vnone])) .big =
       cencX 0 .vnone .big ++ cencX 0 .vnone .big ∧
     decode true cdecX (.slice (.custom 0 .bool)) (.vslice Option.none) .big
       (Option.some 2) [1, 2, 3] =
       .ok (.vslice (Option.some [.vint 9, .vint 9]), [3]) ∧
     encode true cencX (.array 2 (.custom 0 .bool)) (.vlist [.vnone, .vnone])
       .big = cencX 0 .vnone .big ++ cencX 0 .vnone .big ∧
     decode true cdecX (.array 2 (.custom 0 .bool))
       (zeroValue (.array 2 (.custom 0 .bool))) .big Option.none [1, 2, 3] =
       .ok (.vlist [.vint 9, .vint 9], [3]) ∧
     encode true cencX (.slice (.custom 0 .uint8)) .vnone .big =
       asBytesList (asSliceList .vnone)) :=
  ⟨⟨rfl, rfl, rfl⟩,
    C7_custom_hook_amended true cencX cdecX 0 .bool .vnone .vnone .vnone
      .vnone (.vint 9) (.vint 9) .big Option.none [1, 2, 3] [2, 3] [3]
      rfl rfl rfl⟩

/-- C8 counterexample: the wire width of a Go `int` is not
platform-independent — encoding `int 0` writes 8 bytes on a 64-bit
platform and 4 bytes on a 32-bit platform. -/
theorem C8_counterexample :
    ¬ ((encode true noCEnc .int (.vint 0) .big).length =
       (encode false noCEnc .int (.vint 0) .big).length) := by
  decide

/-- C8 amended: `int`/`uint` are serialized at the platform's native
word width (`goIntW`: 8 bytes on 64-bit, 4 on 32-bit); `encode` and
`decode` agree on that width on any one platform, so in-range values
round-trip there — but the width varies across architectures. -/
theorem C8_platform_width_amended (is64 : Bool)
    (cenc : Nat → Value → ByteOrder → Bytes)
    (cdec : Nat → Value → ByteOrder → Bytes → Except DErr (Value × Bytes))
    (order : ByteOrder) (i : Int) (n : Nat) (cur : Value) (sz : Option Int)
    (rest : Bytes)
    (hlo : -((2 : Int) ^ (8 * goIntW is64 - 1)) ≤ i)
    (hhi : i < 2 ^ (8 * goIntW is64 - 1)) (hn : n < 2 ^ (8 * goIntW is64)) :
    (encode is64 cenc .int (.vint i) order).length = goIntW is64 ∧
    (encode is64 cenc .uint (.vuint n) order).length = goIntW is64 ∧
    decode is64 cdec .int cur order sz
      (encode is64 cenc .int (.vint i) order ++ rest) = .ok (.vint i, rest) ∧
    decode is64 cdec .uint cur order sz
      (encode is64 cenc .uint (.vuint n) order ++ rest) =
      .ok (.vuint n, rest) := by
  have hw : 0 < goIntW is64 := by cases is64 <;> simp [goIntW]
  have h1 := readUintW_append order (goIntW is64) (toTwos (goIntW is64) i) rest
  rw [Nat.mod_eq_of_lt (toTwos_lt (goIntW is64) i)] at h1
  have h3 := ofTwos_toTwos (goIntW is64) i hw hlo hhi
  have h2 := readUintW_append order (goIntW is64) n rest
  rw [Nat.mod_eq_of_lt hn] at h2
  refine ⟨?_, ?_, ?_, ?_⟩
  · simp [encode, putUint_length]
  · simp [encode, putUint_length]
  · simp [encode, decode, asInt, h1, h3]
  · simp [encode, decode, asNat, h2]

theorem C8_platform_width_witness :
    (-((2 : Int) ^ (8 * goIntW true - 1)) ≤ -5 ∧
      (-5 : Int) < 2 ^ (8 * goIntW true - 1) ∧ (3 : Nat) < 2 ^ (8 * goIntW true)) ∧
    ((encode true noCEnc .int (.vint (-5)) .big).length = goIntW true ∧
     (encode true noCEnc .uint (.vuint 3) .big).length = goIntW true ∧
     decode true noCDec .int .vnone .big Option.none
       (encode true noCEnc .int (.vint (-5)) .big ++ [9]) =
       .ok (.vint (-5), [9]) ∧
     decode true noCDec .uint .vnone .big Option.none
       (encode true noCEnc .uint (.vuint 3) .big ++ [9]) =
       .ok (.vuint 3, [9])) :=
  ⟨⟨by decide, by decide, by decide⟩,
    C8_platform_width_amended true noCEnc noCDec .big (-5) 3 .vnone Option.none
      [9] (by decide) (by decide) (by decide)⟩

/-- Decoding any type that needs a resolved size (strings and slices,
also behind pointers) with a `nil` size fails with the
unresolved-length error, before consuming any bytes. -/
theorem decode_noSize (is64 : Bool)
    (cdec : Nat → Value → ByteOrder → Bytes → Except DErr (Value × Bytes))
    (t : Ty) (cur : Value) (order : ByteOrder) (bs : Bytes)
    (hn : needsSize t = true) :
    decode is64 cdec t cur order Option.none bs = .error .noSize := by
  match t with
  | .str => simp [decode]
  | .slice e => simp [decode]
  | .ptr e =>
    rw [decode, decode_noSize is64 cdec e (zeroValue e) order bs
      (by simpa [needsSize] using hn)]
  | .bool | .int | .int8 | .int16 | .int32 | .int64 | .uint | .uint8
  | .uint16 | .uint32 | .uint64 | .float32 | .float64 | .array _ _
  | .struct _ | .iface | .custom _ _ => simp [needsSize] at hn

/-- C3: when a variable-length field is reached with no resolved length
in the `lens` table (in particular when its designator is declared after
it, since the table is empty at that point), decode fails at that field
with the unresolved-length error wrapped in the field's name, and the
error aborts the enclosing aggregate. -/
theorem C3_unresolved_length_error (is64 : Bool)
    (cdec : Nat → Value → ByteOrder → Bytes → Except DErr (Value × Bytes))
    (name : String) (tag : Tag) (t : Ty) (rest : StructFields)
    (curs : List Value) (lens : List (String × Int)) (order : ByteOrder)
    (bs : Bytes) (cur2 : Value) (sz : Option Int)
    (hn : needsSize t = true) (hl : lookupLens lens name = Option.none)
    (ht : tagSkip tag = false) :
    decodeFields is64 cdec (.cons name tag true t rest) curs lens order bs =
      .error (.field name .noSize) ∧
    decode is64 cdec (.struct (.cons name tag true t rest)) cur2 order sz bs =
      .error (.field name .noSize) := by
  have key : ∀ (curs2 : List Value) (lens2 : List (String × Int)),
      lookupLens lens2 name = Option.none →
      decodeFields is64 cdec (.cons name tag true t rest) curs2 lens2 order bs =
        .error (.field name .noSize) := by
    intro curs2 lens2 hl2
    rw [decodeFields]
    simp only [ht, Bool.not_true, Bool.or_false, Bool.false_eq_true, if_false]
    rw [hl2, decode_noSize is64 cdec t (curs2.headD (zeroValue t)) order bs hn]
  refine ⟨key curs lens hl, ?_⟩
  rw [decode, key (asList cur2) [] (by rw [lookupLens])]

theorem C3_unresolved_length_witness :
    (needsSize .str = true ∧ lookupLens [] "Data" = Option.none ∧
      tagSkip Tag.none = false) ∧
    (decodeFields true noCDec
        (.cons "Data" Tag.none true .str
          (.cons "Len" (Tag.lenof "Data") true .uint32 .nil))
        [] [] .big [0, 0, 0, 0] = .error (.field "Data" .noSize) ∧
     decode true noCDec
        (.struct (.cons "Data" Tag.none true .str
          (.cons "Len" (Tag.lenof "Data") true .uint32 .nil)))
        .vnone .big Option.none [0, 0, 0, 0] =
        .error (.field "Data" .noSize)) :=
  ⟨⟨rfl, rfl, rfl⟩,
    C3_unresolved_length_error true noCDec "Data" Tag.none .str
      (.cons "Len" (Tag.lenof "Data") true .uint32 .nil) [] [] .big
      [0, 0, 0, 0] .vnone Option.none rfl rfl rfl⟩

/-- The aggregate of claim C5: `{Len int8 lenof:Data; Data string}`. -/
def negLenStruct : Ty :=
  .struct (.cons "Len" (Tag.lenof "Data") true .int8
    (.cons "Data" Tag.none true .str .nil))

/-- C5 counterexample: a negative designator value is not an error.
Decoding `{Len int8 lenof:Data; Data string}` from the single byte `0xFF`
succeeds with `Len = -1` and `Data` left empty — no failure at the point
of conversion. -/
theorem C5_counterexample :
    decode true noCDec negLenStruct (zeroValue negLenStruct) .big Option.none
      [255] = .ok (.vlist [.vint (-1), .vstr []], []) ∧
    ∀ e : DErr,
      decode true noCDec negLenStruct (zeroValue negLenStruct) .big Option.none
        [255] ≠ .error e := by
  constructor
  · rfl
  · intro e
    rw [show decode true noCDec negLenStruct (zeroValue negLenStruct) .big
      Option.none [255] = .ok (.vlist [.vint (-1), .vstr []], []) from rfl]
    simp

/-- C5 amended: invalid designator values are coerced, not rejected: any
non-positive resolved size makes a string decode a no-op and a slice
decode an empty slice (consuming nothing), and `sizeOfAnotherField`
wraps out-of-range values silently — `uint64 2^63` becomes the negative
count `-(2^63)` on a 64-bit platform, `int8 -1` stays `-1`. -/
theorem C5_invalid_size_amended (is64 : Bool)
    (cdec : Nat → Value → ByteOrder → Bytes → Except DErr (Value × Bytes))
    (cur : Value) (order : ByteOrder) (e : Ty) (bs : Bytes) (n : Int)
    (hn : n ≤ 0) :
    decode is64 cdec .str cur order (Option.some n) bs = .ok (cur, bs) ∧
    decode is64 cdec (.slice e) cur order (Option.some n) bs =
      .ok (.vslice (Option.some []), bs) ∧
    sizeOfAnotherField true .uint64 (.vuint (2 ^ 63)) (Tag.lenof "X") =
      Option.some ("X", -(2 ^ 63)) ∧
    sizeOfAnotherField true .int8 (.vint (-1)) (Tag.lenof "X") =
      Option.some ("X", -1) := by
  refine ⟨?_, ?_, by decide, by decide⟩
  · rw [decode, if_pos hn]
  · rw [decode, if_pos hn]

theorem C5_invalid_size_witness :
    ((-1 : Int) ≤ 0) ∧
    (decode true noCDec .str (.vstr []) .big (Option.some (-1)) [5] =
      .ok (.vstr [], [5]) ∧
     decode true noCDec (.slice .bool) (.vstr []) .big (Option.some (-1)) [5] =
      .ok (.vslice (Option.some []), [5]) ∧
     sizeOfAnotherField true .uint64 (.vuint (2 ^ 63)) (Tag.lenof "X") =
       Option.some ("X", -(2 ^ 63)) ∧
     sizeOfAnotherField true .int8 (.vint (-1)) (Tag.lenof "X") =
       Option.some ("X", -1)) :=
  ⟨by decide,
    C5_invalid_size_amended true noCDec (.vstr []) .big .bool [5] (-1)
      (by decide)⟩

/-- Two field-value lists that agree on every visible (not excluded, not
unexported) field, and may differ arbitrarily on skipped fields. -/
def eqExceptSkipped : StructFields → List Value → List Value → Prop
  | .nil, _, _ => True
  | .cons _ tag exp t rest, xs, ys =>
    ((tagSkip tag || !exp) = false →
      xs.headD (zeroValue t) = ys.headD (zeroValue t)) ∧
    eqExceptSkipped rest xs.tail ys.tail

/-- Encoding only reads visible fields. -/
theorem encodeFields_congr (is64 : Bool) (cenc : Nat → Value → ByteOrder → Bytes)
    (fs : StructFields) (xs ys : List Value) (order : ByteOrder)
    (h : eqExceptSkipped fs xs ys) :
    encodeFields is64 cenc fs xs order = encodeFields is64 cenc fs ys order := by
  match fs with
  | .nil => rw [encodeFields, encodeFields]
  | .cons name tag exp t rest =>
    rw [eqExceptSkipped] at h
    obtain ⟨hhead, htail⟩ := h
    rw [encodeFields, encodeFields,
      encodeFields_congr is64 cenc rest xs.tail ys.tail order htail]
    cases hskip : (tagSkip tag || !exp) with
    | true => simp [hskip]
    | false =>
      have hh := hhead hskip
      simp only [List.headD_eq_head?] at hh
      simp [hskip, hh]

/-- C9: instances of an aggregate that differ only in excluded (`"-"`) or
non-exported fields encode to byte-identical output, and on decode such
fields consume zero bytes and are passed over unchanged. -/
theorem C9_zero_cost_exclusion (is64 : Bool)
    (cenc : Nat → Value → ByteOrder → Bytes)
    (cdec : Nat → Value → ByteOrder → Bytes → Except DErr (Value × Bytes))
    (fs : StructFields) (xs ys : List Value) (name : String) (tag : Tag)
    (exp : Bool) (t : Ty) (rest : StructFields) (curs : List Value)
    (lens : List (String × Int)) (order : ByteOrder) (bs : Bytes)
    (h : eqExceptSkipped fs xs ys) :
    encode is64 cenc (.struct fs) (.vlist xs) order =
      encode is64 cenc (.struct fs) (.vlist ys) order ∧
    decodeFields is64 cdec (.cons name Tag.skip exp t rest) curs lens order bs =
      (decodeFields is64 cdec rest curs.tail lens order bs).map
        (fun p => (curs.headD (zeroValue t) :: p.1, p.2)) ∧
    decodeFields is64 cdec (.cons name tag false t rest) curs lens order bs =
      (decodeFields is64 cdec rest curs.tail lens order bs).map
        (fun p => (curs.headD (zeroValue t) :: p.1, p.2)) := by
  refine ⟨?_, ?_, ?_⟩
  · simp only [encode, asList]
    exact encodeFields_congr is64 cenc fs xs ys order h
  · rw [decodeFields]
    simp only [tagSkip, Bool.true_or, if_true]
    cases h2 : decodeFields is64 cdec rest curs.tail lens order bs with
    | error e => simp [Except.map]
    | ok p => simp [Except.map]
  · rw [decodeFields]
    simp only [Bool.not_false, Bool.or_true, if_true]
    cases h2 : decodeFields is64 cdec rest curs.tail lens order bs with
    | error e => simp [Except.map]
    | ok p => simp [Except.map]

theorem C9_zero_cost_witness :
    eqExceptSkipped
      (.cons "A" Tag.skip true .int8 (.cons "B" Tag.none true .uint8 .nil))
      [.vint 1, .vuint 7] [.vint 2, .vuint 7] ∧
    (encode true noCEnc
        (.struct (.cons "A" Tag.skip true .int8
          (.cons "B" Tag.none true .uint8 .nil)))
        (.vlist [.vint 1, .vuint 7]) .big =
      encode true noCEnc
        (.struct (.cons "A" Tag.skip true .int8
          (.cons "B" Tag.none true .uint8 .nil)))
        (.vlist [.vint 2, .vuint 7]) .big ∧
     decodeFields true noCDec (.cons "A" Tag.skip true .int8 .nil) [] [] .big
        [9] = (decodeFields true noCDec .nil [] [] .big [9]).map
          (fun p => (([] : List Value).headD (zeroValue .int8) :: p.1, p.2)) ∧
     decodeFields true noCDec (.cons "A" Tag.none false .int8 .nil) [] [] .big
        [9] = (decodeFields true noCDec .nil [] [] .big [9]).map
          (fun p => (([] : List Value).headD (zeroValue .int8) :: p.1, p.2))) :=
  ⟨by simp [eqExceptSkipped, tagSkip],
    C9_zero_cost_exclusion true noCEnc noCDec
      (.cons "A" Tag.skip true .int8 (.cons "B" Tag.none true .uint8 .nil))
      [.vint 1, .vuint 7] [.vint 2, .vuint 7] "A" Tag.none true .int8 .nil
      [] [] .big [9] (by simp [eqExceptSkipped, tagSkip])⟩

/-- The aggregate of claim C10: two designators for the same target,
`{A int8 lenof:T; B int8 lenof:T; T string}`. -/
def dupLenStruct : Ty :=
  .struct (.cons "A" (Tag.lenof "T") true .int8
    (.cons "B" (Tag.lenof "T") true .int8
      (.cons "T" Tag.none true .str .nil)))

/-- C10: two designators naming the same target raise no error; the
length table keeps the most recent write (`lookupLens` returns the entry
written last), so decoding `{A=5; B=2; T}` from `[5, 2, d0, d1]` reads a
2-byte string (B's value, written after A's 5) and succeeds. -/
theorem C10_last_designator_wins (is64 : Bool)
    (cdec : Nat → Value → ByteOrder → Bytes → Except DErr (Value × Bytes))
    (d0 d1 : Nat) (n1 n2 : Int) (lens : List (String × Int)) :
    lookupLens (("T", n2) :: ("T", n1) :: lens) "T" = Option.some n2 ∧
    decode is64 cdec dupLenStruct (zeroValue dupLenStruct) .big Option.none
      [5, 2, d0, d1] =
      .ok (.vlist [.vint 5, .vint 2, .vstr [d0, d1]], []) := by
  constructor
  · simp [lookupLens]
  · cases is64 <;> rfl

/-- A length-designated string: `{Len uint32 lenof:Data; Data string}`. -/
def lenString : Ty :=
  .struct (.cons "Len" (Tag.lenof "Data") true .uint32
    (.cons "Data" Tag.none true .str .nil))

/-- `{Len=3, Data="4444"}` — the designator disagrees with the data
length (the library documents that both are encoded as-is). -/
def lenStringVal : Value := .vlist [.vuint 3, .vstr [52, 52, 52, 52]]

/-- C1 counterexample: the round trip fails without a designator
consistency assumption.  `{Len=3, Data="4444"}` encodes as-is, but
decoding reads only 3 data bytes, yielding `{Len=3, Data="444"}` with a
byte left over — not the original value. -/
theorem C1_counterexample :
    decode true noCDec lenString (zeroValue lenString) .big Option.none
      (encode true noCEnc lenString lenStringVal .big) =
      .ok (.vlist [.vuint 3, .vstr [52, 52, 52]], [52]) ∧
    Value.vlist [.vuint 3, .vstr [52, 52, 52]] ≠ lenStringVal :=
  ⟨rfl, by simp [lenStringVal]⟩

/-- C1 (amended): for every value of a supported shape that is `Good` —
in range for its type, every variable-length component governed by an
earlier designator whose value equals the component's actual length,
excluded/non-exported/interface fields at their zero value, custom
hooks that round-trip, elements of byte-kind slices being raw bytes
(the fast path bypasses any hooks), and no arrays of defined byte
types (decoding those panics in `reflect.Copy`) — and for a size
argument a faithful context would resolve (`SzOK`), decoding the
encoding yields exactly the normalization `normVal`: the identity up to
absent optionals coming back as present (recursively normalized) zero
referents and nil slices coming back as present empty slices — and
consumes exactly the encoded bytes. -/
theorem C1_round_trip_amended (is64 : Bool)
    (cenc : Nat → Value → ByteOrder → Bytes)
    (cdec : Nat → Value → ByteOrder → Bytes → Except DErr (Value × Bytes))
    (t : Ty) (v : Value) (order : ByteOrder) (sz : Option Int) (rest : Bytes)
    (hg : Good is64 cenc cdec t v) (hs : SzOK t v sz) :
    decode is64 cdec t (zeroValue t) order sz
      (encode is64 cenc t v order ++ rest) = .ok (normVal t v, rest) :=
  decEnc is64 cenc cdec t v order sz rest hg hs

theorem C1_round_trip_witness :
    Good true noCEnc noCDec sizedPayload sizedPayloadVal ∧
    SzOK sizedPayload sizedPayloadVal Option.none ∧
    decode true noCDec sizedPayload (zeroValue sizedPayload) .big Option.none
      (encode true noCEnc sizedPayload sizedPayloadVal .big ++ []) =
      .ok (normVal sizedPayload sizedPayloadVal, []) := by
  have hg : Good true noCEnc noCDec sizedPayload sizedPayloadVal := by
    simp [Good, GoodFields, GoodElems, isByteVal, isU8, sizedPayload,
      sizedPayloadVal, fieldCount, needsSize, lookupLens, sizeOfAnotherField,
      normVal, valLen, asSliceList, canIntTy, canUintTy, tagSkip, toGoInt,
      toTwos, ofTwos, goIntW, asNat, asInt, mapValues]
  have hs : SzOK sizedPayload sizedPayloadVal Option.none := by
    simp [SzOK, sizedPayload, sizedPayloadVal]
  exact ⟨hg, hs, C1_round_trip_amended true noCEnc noCDec sizedPayload
    sizedPayloadVal .big Option.none [] hg hs⟩
